import Mathlib

/-!
Verification of the URL-shortener service in `main.py` (FastAPI + SQLite),
via a shallow embedding: the two SQLite tables become lists of rows kept in
rowid (insertion) order, timestamps become integers (seconds, one timeline),
and each HTTP handler becomes a function from a database state to a result
together with the successor state.  Raised `HTTPException`s become error
results; since every `raise` in the source happens before `conn.commit()`,
the error branches return the input state unchanged.
-/

deriving instance DecidableEq for Except

/-- Seconds in a day, `datetime.timedelta(days=1)`. -/
def secPerDay : Int := 86400

/-- Calendar date (day number) of a timestamp: the embedding of the SQLite
`DATE(...)` projection.  Floor division, so it is also correct for
timestamps before the epoch. -/
def dateOf (t : Int) : Int := Int.fdiv t secPerDay

/-- One row of the `urls` table (schema in `init_database`). -/
structure UrlRow where
  id : Nat
  original_url : String
  short_code : String
  created_at : Int
  clicks : Nat
  is_active : Bool
  expires_at : Option Int
deriving DecidableEq

/-- One row of the `analytics` table. -/
structure ClickRow where
  short_code : String
  ip_address : String
  user_agent : String
  referrer : String
  clicked_at : Int
deriving DecidableEq

/-- The SQLite database: both tables in rowid (insertion) order, plus the
next AUTOINCREMENT id for `urls`. -/
structure DB where
  urls : List UrlRow
  analytics : List ClickRow
  nextId : Nat
deriving DecidableEq

/-- The `HTTPException`s the handlers raise, by meaning: 400 invalid URL,
400 custom code already exists, 404 not found, 410 expired.  `genLoop`
stands for the generated-code retry loop of `shorten_url` exhausting the
supplied candidate stream (the source loops unboundedly drawing random
codes; the embedding takes the stream as an explicit input). -/
inductive ApiErr
  | invalidURL
  | codeConflict
  | notFound
  | expired
  | genLoop
deriving DecidableEq

/-- Characters `urllib.parse.urlparse` accepts inside a scheme. -/
def isSchemeChar (c : Char) : Bool :=
  c.isAlphanum || c == '+' || c == '-' || c == '.'

/-- Split a character list at the first colon when everything before it is
a run of scheme characters; embeds the scheme recognition of
`urllib.parse.urlparse` (no colon, or a non-scheme character before the
first colon, means no scheme). -/
def schemeSplit : List Char → Option (List Char × List Char)
  | [] => none
  | c :: cs =>
    if c == ':' then some ([], cs)
    else if isSchemeChar c then
      match schemeSplit cs with
      | some (sc, rest) => some (c :: sc, rest)
      | none => none
    else none

/-- `is_valid_url` from `main.py`: true iff `urlparse(url)` yields a
non-empty scheme and a non-empty netloc (`all([result.scheme, result.netloc])`).
A scheme must start with a letter; a netloc is parsed only when the text
after the scheme colon starts with `//` and runs up to the next `/`, `?`
or `#`. -/
def is_valid_url (url : String) : Bool :=
  match schemeSplit url.data with
  | none => false
  | some (sc, rest) =>
    (match sc with
     | [] => false
     | c :: _ => c.isAlpha) &&
    (match rest with
     | '/' :: '/' :: r =>
       !(r.takeWhile (fun c => !(c == '/' || c == '?' || c == '#'))).isEmpty
     | _ => false)

/-- `SELECT * FROM urls WHERE original_url = ? AND is_active = 1`, fetchone:
the first matching row in rowid order (the query has no ORDER BY; SQLite
scans the table in rowid order). -/
def findActiveByUrl (s : DB) (url : String) : Option UrlRow :=
  s.urls.find? (fun r => r.is_active && r.original_url == url)

/-- `SELECT id FROM urls WHERE short_code = ?` finds a row, active or not. -/
def codeExists (s : DB) (code : String) : Bool :=
  s.urls.any (fun r => r.short_code == code)

/-- `SELECT * FROM urls WHERE short_code = ? AND is_active = 1`, fetchone. -/
def findActiveByCode (s : DB) (code : String) : Option UrlRow :=
  s.urls.find? (fun r => r.short_code == code && r.is_active)

/-- `SELECT * FROM urls WHERE short_code = ?`, fetchone. -/
def findByCode (s : DB) (code : String) : Option UrlRow :=
  s.urls.find? (fun r => r.short_code == code)

/-- The while-loop of `shorten_url` drawing generated codes until one is
not yet in the store, over an explicit stream of random candidates. -/
def pickFresh (s : DB) : List String → Option String
  | [] => none
  | c :: cs => if codeExists s c then pickFresh s cs else some c

/-- Default value of the BASE_URL configuration. -/
def BASE_URL : String := "http://localhost:5001"

/-- The `URLResponse` model, without the `qr_code` field: QR rendering is
an external collaborator, a pure function of `short_url`. -/
structure URLResponse where
  id : Nat
  original_url : String
  short_code : String
  short_url : String
  created_at : Int
  clicks : Nat
deriving DecidableEq

/-- The response `shorten_url` builds from a row (in the reuse branch from
the existing row; in the create branch the freshly inserted row holds
exactly the values the handler answers with). -/
def existingResponse (row : UrlRow) : URLResponse :=
  { id := row.id, original_url := row.original_url, short_code := row.short_code,
    short_url := BASE_URL ++ "/" ++ row.short_code, created_at := row.created_at,
    clicks := row.clicks }

/-- The row INSERTed by `shorten_url`: clicks 0, active, created now, and
`expires_at = now + expires_in_days days` when `expires_in_days` is given
and non-zero — in Python, `if url_data.expires_in_days:` is false both
for `None` and for `0`. -/
def newRow (s : DB) (url code : String) (expires_in_days : Option Int) (now : Int) : UrlRow :=
  { id := s.nextId, original_url := url, short_code := code, created_at := now,
    clicks := 0, is_active := true,
    expires_at :=
      match expires_in_days with
      | some d => if d = 0 then none else some (now + d * secPerDay)
      | none => none }

/-- In Python, `if not short_code:` treats both `None` and the empty
string as the absence of a custom code. -/
def effectiveCustom (custom_code : Option String) : Option String :=
  match custom_code with
  | some c => if c == "" then none else some c
  | none => none

/-- The INSERT of `shorten_url` plus the response it then builds (the DB
default CURRENT_TIMESTAMP and `datetime.now()` are the same instant on
the single timeline of the embedding). -/
def insertRow (s : DB) (url code : String) (expires_in_days : Option Int) (now : Int) :
    Except ApiErr URLResponse × DB :=
  let row := newRow s url code expires_in_days now
  (.ok (existingResponse row),
   { s with urls := s.urls ++ [row], nextId := s.nextId + 1 })

/-- POST /api/shorten (`shorten_url` in `main.py`): validate, reuse an
active row with the same original URL, otherwise pick a code (custom, with
a conflict check against all rows, or generated fresh) and insert. -/
def shorten_url (s : DB) (original_url : String) (custom_code : Option String)
    (expires_in_days : Option Int) (gens : List String) (now : Int) :
    Except ApiErr URLResponse × DB :=
  if !is_valid_url original_url then (.error .invalidURL, s)
  else
    match findActiveByUrl s original_url with
    | some row => (.ok (existingResponse row), s)
    | none =>
      match effectiveCustom custom_code with
      | none =>
        match pickFresh s gens with
        | none => (.error .genLoop, s)
        | some code => insertRow s original_url code expires_in_days now
      | some code =>
        if codeExists s code then (.error .codeConflict, s)
        else insertRow s original_url code expires_in_days now

/-- The success path of `redirect_url`: INSERT the analytics row, then
`UPDATE urls SET clicks = clicks + 1 WHERE short_code = ?`, then 302 to
the original URL of the row. -/
def recordAndRedirect (s : DB) (row : UrlRow)
    (short_code ip user_agent referrer : String) (now : Int) :
    Except ApiErr String × DB :=
  (.ok row.original_url,
   { s with
     analytics := s.analytics ++ [⟨short_code, ip, user_agent, referrer, now⟩],
     urls := s.urls.map (fun r =>
       if r.short_code == short_code then { r with clicks := r.clicks + 1 } else r) })

/-- GET on a short-code path (`redirect_url`): look up a row that is
active, 404 when none, 410 when its expiry lies strictly before now,
otherwise record the click and answer the original URL. -/
def redirect_url (s : DB) (short_code ip user_agent referrer : String) (now : Int) :
    Except ApiErr String × DB :=
  match findActiveByCode s short_code with
  | none => (.error .notFound, s)
  | some row =>
    match row.expires_at with
    | some e =>
      if now > e then (.error .expired, s)
      else recordAndRedirect s row short_code ip user_agent referrer now
    | none => recordAndRedirect s row short_code ip user_agent referrer now

/-- Insert a date into a strictly ascending list of dates, keeping it
strictly ascending and duplicate-free. -/
def insDate (d : Int) : List Int → List Int
  | [] => [d]
  | x :: xs =>
    if d < x then d :: x :: xs
    else if d = x then x :: xs
    else x :: insDate d xs

/-- The distinct dates of a list, in ascending order: the embedding of
`GROUP BY DATE(clicked_at) ORDER BY date`. -/
def sortedDates (l : List Int) : List Int := l.foldr insDate []

/-- The dates (one entry per event) of the events inside the window
`clicked_at >= date('now', '-7 days')`: both sides are compared as SQLite
text, so an event qualifies iff its calendar date is at least seven days
before the current date. -/
def windowDates (s : DB) (now : Int) : List Int :=
  (s.analytics.filter (fun e => dateOf now - 7 ≤ dateOf e.clicked_at)).map
    (fun e => dateOf e.clicked_at)

/-- The `click_data` query of `get_analytics`: per-date event counts over
the window, grouped by date, ascending. -/
def clickData (s : DB) (now : Int) : List (Int × Nat) :=
  (sortedDates (windowDates s now)).map (fun d => (d, (windowDates s now).count d))

/-- GET /api/analytics response model. -/
structure AnalyticsResponse where
  total_links : Nat
  total_clicks : Nat
  today_clicks : Nat
  click_data : List (Int × Nat)
deriving DecidableEq

/-- GET /api/analytics (`get_analytics`). -/
def get_analytics (s : DB) (now : Int) : AnalyticsResponse :=
  { total_links := (s.urls.filter (fun r => r.is_active)).length,
    total_clicks := s.analytics.length,
    today_clicks := (s.analytics.filter (fun e => dateOf e.clicked_at == dateOf now)).length,
    click_data := clickData s now }

/-- One entry of the per-code click list of `get_url_analytics`. -/
structure ClickOut where
  ip_address : String
  user_agent : String
  referrer : String
  clicked_at : Int
deriving DecidableEq

/-- The `url_info` part of the per-code analytics response. -/
structure UrlInfo where
  original_url : String
  short_code : String
  created_at : Int
  total_clicks : Nat
deriving DecidableEq

/-- Insert an event into a list ordered by clicked_at descending. -/
def insClickDesc (e : ClickRow) : List ClickRow → List ClickRow
  | [] => [e]
  | x :: xs =>
    if x.clicked_at < e.clicked_at then e :: x :: xs else x :: insClickDesc e xs

/-- ORDER BY clicked_at DESC. -/
def sortClicksDesc (l : List ClickRow) : List ClickRow := l.foldr insClickDesc []

/-- `SELECT ip_address, user_agent, referrer, clicked_at FROM analytics
WHERE short_code = ? ORDER BY clicked_at DESC`. -/
def eventsForCode (s : DB) (code : String) : List ClickOut :=
  (sortClicksDesc (s.analytics.filter (fun e => e.short_code == code))).map
    (fun e => ⟨e.ip_address, e.user_agent, e.referrer, e.clicked_at⟩)

/-- GET /api/analytics for one short code (`get_url_analytics`): 404 when
no row, active or not, has this code; otherwise the url_info of that row
plus every recorded click for the code. -/
def get_url_analytics (s : DB) (code : String) :
    Except ApiErr (UrlInfo × List ClickOut) :=
  match findByCode s code with
  | none => .error .notFound
  | some row =>
    .ok (⟨row.original_url, row.short_code, row.created_at, row.clicks⟩,
         eventsForCode s code)

/-- Insert a row into a list ordered by created_at descending. -/
def insRowDesc (r : UrlRow) : List UrlRow → List UrlRow
  | [] => [r]
  | x :: xs =>
    if x.created_at < r.created_at then r :: x :: xs else x :: insRowDesc r xs

/-- ORDER BY created_at DESC. -/
def sortRowsDesc (l : List UrlRow) : List UrlRow := l.foldr insRowDesc []

/-- GET /api/links (`get_all_links`): the active rows, newest first, with
the same fields as `URLResponse` minus the QR code. -/
def get_all_links (s : DB) : List URLResponse :=
  (sortRowsDesc (s.urls.filter (fun r => r.is_active))).map existingResponse

/-- DELETE on a short code (`delete_link`): set is_active = 0 on every row
with the code; 404 when the UPDATE matched no row.  The SQLite rowcount
counts the rows the WHERE clause matched, also when the stored value does
not change, so a second delete of the same code still succeeds. -/
def delete_link (s : DB) (code : String) : Except ApiErr Unit × DB :=
  if s.urls.countP (fun r => r.short_code == code) = 0 then (.error .notFound, s)
  else
    (.ok (),
     { s with urls := s.urls.map (fun r =>
         if r.short_code == code then { r with is_active := false } else r) })

/-- The UNIQUE constraint on `urls.short_code`: the database invariant
every reachable state satisfies. -/
def Wf (s : DB) : Prop := (s.urls.map (fun r => r.short_code)).Nodup

instance (s : DB) : Decidable (Wf s) :=
  inferInstanceAs (Decidable (List.Nodup _))

/-- The row `redirect_url` will look at exists, is active, and is not
expired at time now. -/
def linkLiveAt (s : DB) (code : String) (now : Int) : Bool :=
  match findActiveByCode s code with
  | some row =>
    match row.expires_at with
    | some e => decide (now ≤ e)
    | none => true
  | none => false

/-- The successor state of a successful DELETE: every row carrying the
code is marked inactive; everything else is untouched. -/
def deactAll (s : DB) (code : String) : DB :=
  { s with urls := s.urls.map (fun r =>
      if r.short_code == code then { r with is_active := false } else r) }

/-- The empty database. -/
def db0 : DB := ⟨[], [], 1⟩

/-- One active row whose expiry (instant 0) is already past. -/
def dbExpired : DB := ⟨[⟨1, "http://example.com", "abc", 0, 0, true, some 0⟩], [], 2⟩

/-- One active, never-expiring row with five clicks. -/
def dbOne : DB := ⟨[⟨1, "http://example.com", "abc", 0, 5, true, none⟩], [], 2⟩

/-- One deactivated row. -/
def dbInactive : DB := ⟨[⟨1, "http://x.com", "abc", 0, 0, false, none⟩], [], 2⟩

/-- One active row with three clicks and one recorded click event. -/
def dbClicks : DB :=
  ⟨[⟨1, "http://x.com", "abc", 0, 3, true, none⟩], [⟨"abc", "1.2.3.4", "ua", "ref", 2⟩], 2⟩

/-- Two active rows with the same original URL, the second created later. -/
def dbTwoSame : DB :=
  ⟨[⟨1, "http://u.com", "aaa", 100, 0, true, none⟩,
    ⟨2, "http://u.com", "bbb", 200, 0, true, none⟩], [], 3⟩

/-- One click event dated exactly seven days before day 10. -/
def dbWeekOld : DB := ⟨[], [⟨"abc", "", "", "", 3 * 86400⟩], 1⟩

/-- Two click events dated on day 10. -/
def dbToday : DB :=
  ⟨[], [⟨"abc", "", "", "", 10 * 86400 + 5⟩, ⟨"abc", "", "", "", 10 * 86400 + 9⟩], 1⟩

theorem mem_insDate {y d : Int} {l : List Int} : y ∈ insDate d l ↔ y = d ∨ y ∈ l := by
  induction l with
  | nil => simp [insDate]
  | cons x xs ih =>
    by_cases h1 : d < x
    · simp [insDate, h1]
    · by_cases h2 : d = x
      · subst h2; simp [insDate, h1]
      · simp only [insDate, if_neg h1, if_neg h2, List.mem_cons, ih]
        tauto

theorem pairwise_insDate {d : Int} {l : List Int} (h : l.Pairwise (· < ·)) :
    (insDate d l).Pairwise (· < ·) := by
  induction l with
  | nil => simp [insDate]
  | cons x xs ih =>
    rw [List.pairwise_cons] at h
    obtain ⟨hx, hxs⟩ := h
    by_cases h1 : d < x
    · rw [insDate, if_pos h1, List.pairwise_cons]
      refine ⟨?_, List.pairwise_cons.mpr ⟨hx, hxs⟩⟩
      intro y hy
      rcases List.mem_cons.mp hy with rfl | hy'
      · exact h1
      · exact lt_trans h1 (hx y hy')
    · by_cases h2 : d = x
      · subst h2
        rw [insDate, if_neg h1, if_pos rfl, List.pairwise_cons]
        exact ⟨hx, hxs⟩
      · rw [insDate, if_neg h1, if_neg h2, List.pairwise_cons]
        refine ⟨?_, ih hxs⟩
        intro y hy
        rcases mem_insDate.mp hy with rfl | hy'
        · omega
        · exact hx y hy'

theorem mem_sortedDates {y : Int} {l : List Int} : y ∈ sortedDates l ↔ y ∈ l := by
  induction l with
  | nil => simp [sortedDates]
  | cons x xs ih =>
    show y ∈ insDate x (sortedDates xs) ↔ _
    rw [mem_insDate, ih]
    simp

theorem pairwise_sortedDates (l : List Int) : (sortedDates l).Pairwise (· < ·) := by
  induction l with
  | nil => simp [sortedDates]
  | cons x xs ih => exact pairwise_insDate ih

theorem sortedDates_all_eq {l : List Int} {d : Int} (h : ∀ x ∈ l, x = d) (hne : l ≠ []) :
    sortedDates l = [d] := by
  induction l with
  | nil => exact absurd rfl hne
  | cons x xs ih =>
    have hx : x = d := h x (List.mem_cons_self x xs)
    subst hx
    show insDate x (sortedDates xs) = [x]
    cases xs with
    | nil => simp [sortedDates, insDate]
    | cons y ys =>
      rw [ih (fun z hz => h z (List.mem_cons_of_mem _ hz)) (by simp)]
      simp [insDate]

theorem find?_eq_some_of_unique {α : Type} {l : List α} {p : α → Bool} {r : α}
    (hmem : r ∈ l) (hp : p r = true) (huniq : ∀ a ∈ l, p a = true → a = r) :
    l.find? p = some r := by
  induction l with
  | nil => cases hmem
  | cons x xs ih =>
    by_cases hx : p x = true
    · have hxr : x = r := huniq x (List.mem_cons_self x xs) hx
      subst hxr
      rw [List.find?_cons_of_pos _ hx]
    · rw [List.find?_cons_of_neg _ (by simp [hx])]
      have hm : r ∈ xs := by
        rcases List.mem_cons.mp hmem with rfl | hm
        · exact absurd hp hx
        · exact hm
      exact ih hm (fun a ha hpa => huniq a (List.mem_cons_of_mem _ ha) hpa)

theorem find?_split {α : Type} {l : List α} {p : α → Bool} {b : α}
    (h : l.find? p = some b) :
    p b = true ∧ ∃ l₁ l₂, l = l₁ ++ b :: l₂ ∧ ∀ a ∈ l₁, p a = false := by
  induction l with
  | nil => cases h
  | cons x xs ih =>
    by_cases hx : p x = true
    · rw [List.find?_cons_of_pos _ hx] at h
      obtain rfl : x = b := by injection h
      exact ⟨hx, [], xs, rfl, by intro a ha; cases ha⟩
    · rw [List.find?_cons_of_neg _ (by simp [hx])] at h
      obtain ⟨hb, l₁, l₂, rfl, hl₁⟩ := ih h
      refine ⟨hb, x :: l₁, l₂, rfl, ?_⟩
      intro a ha
      rcases List.mem_cons.mp ha with rfl | ha'
      · exact Bool.eq_false_iff.mpr hx
      · exact hl₁ a ha'

theorem find?_append_some {α : Type} {l : List α} {b : α} {p : α → Bool}
    (h : ∀ r ∈ l, p r = false) (hp : p b = true) :
    (l ++ [b]).find? p = some b := by
  rw [List.find?_append]
  have hnone : l.find? p = none := List.find?_eq_none.mpr (fun x hx => by simp [h x hx])
  rw [hnone]
  simp [List.find?, hp]

theorem wf_inj {s : DB} (hwf : Wf s) :
    ∀ a ∈ s.urls, ∀ b ∈ s.urls, a.short_code = b.short_code → a = b :=
  List.inj_on_of_nodup_map hwf

theorem findActiveByCode_of_mem {s : DB} {row : UrlRow}
    (hwf : Wf s) (hmem : row ∈ s.urls) (hact : row.is_active = true) :
    findActiveByCode s row.short_code = some row := by
  apply find?_eq_some_of_unique hmem
  · simp [hact]
  · intro a ha hpa
    have hcode : a.short_code = row.short_code := by
      have := (Bool.and_eq_true _ _).mp hpa
      exact beq_iff_eq.mp this.1
    exact wf_inj hwf a ha row hmem hcode

theorem pickFresh_not_exists {s : DB} {gens : List String} {code : String}
    (h : pickFresh s gens = some code) : codeExists s code = false := by
  induction gens with
  | nil => cases h
  | cons c cs ih =>
    by_cases he : codeExists s c = true
    · rw [pickFresh, if_pos he] at h
      exact ih h
    · rw [pickFresh, if_neg he] at h
      obtain rfl : c = code := by injection h
      exact Bool.eq_false_iff.mpr he

theorem redirect_notFound_of_all_inactive {s : DB} {code : String}
    (ip ua ref : String) (now : Int)
    (h : ∀ r ∈ s.urls, r.short_code = code → r.is_active = false) :
    redirect_url s code ip ua ref now = (.error .notFound, s) := by
  have hf : findActiveByCode s code = none := by
    apply List.find?_eq_none.mpr
    intro r hr hcontra
    obtain ⟨h1, h2⟩ := (Bool.and_eq_true _ _).mp hcontra
    have := h r hr (beq_iff_eq.mp h1)
    rw [this] at h2
    cases h2
  unfold redirect_url
  rw [hf]

theorem redirect_ok_of_live {s : DB} {code : String} {now : Int}
    (ip ua ref : String) (h : linkLiveAt s code now = true) :
    ∃ row, findActiveByCode s code = some row ∧
      (redirect_url s code ip ua ref now).1 = .ok row.original_url := by
  unfold linkLiveAt at h
  cases hf : findActiveByCode s code with
  | none => rw [hf] at h; cases h
  | some row =>
    rw [hf] at h
    refine ⟨row, rfl, ?_⟩
    unfold redirect_url
    rw [hf]
    cases he : row.expires_at with
    | none => simp only [he, recordAndRedirect]
    | some e =>
      simp only [he] at h
      have hle : now ≤ e := of_decide_eq_true h
      simp only [he, recordAndRedirect, if_neg (show ¬ now > e by omega)]

theorem setInactive_eq_self {r : UrlRow} (h : r.is_active = false) :
    ({ r with is_active := false } : UrlRow) = r := by
  cases r
  simp_all

theorem shorten_ok_cases {s s' : DB} {u : String} {custom : Option String} {days : Option Int}
    {gens : List String} {now : Int} {resp : URLResponse}
    (hres : shorten_url s u custom days gens now = (.ok resp, s')) :
    (∃ row, findActiveByUrl s u = some row ∧ resp = existingResponse row ∧ s' = s) ∨
    (∃ code, codeExists s code = false ∧
      resp = existingResponse (newRow s u code days now) ∧
      s' = { s with urls := s.urls ++ [newRow s u code days now], nextId := s.nextId + 1 }) := by
  unfold shorten_url at hres
  cases hv : is_valid_url u with
  | false =>
    rw [hv] at hres
    simp at hres
  | true =>
    rw [hv] at hres
    simp only [Bool.not_true, Bool.false_eq_true, if_false] at hres
    cases hf : findActiveByUrl s u with
    | some row =>
      rw [hf] at hres
      injection hres with h1 h2
      injection h1 with h1
      exact Or.inl ⟨row, rfl, h1.symm, h2.symm⟩
    | none =>
      rw [hf] at hres
      cases hc : effectiveCustom custom with
      | none =>
        rw [hc] at hres
        cases hp : pickFresh s gens with
        | none =>
          rw [hp] at hres
          injection hres with h1 h2
          cases h1
        | some code =>
          rw [hp] at hres
          unfold insertRow at hres
          injection hres with h1 h2
          injection h1 with h1
          exact Or.inr ⟨code, pickFresh_not_exists hp, h1.symm, h2.symm⟩
      | some code =>
        rw [hc] at hres
        simp only [] at hres
        by_cases hce : codeExists s code = true
        · rw [if_pos hce] at hres
          injection hres with h1 h2
          cases h1
        · rw [if_neg hce] at hres
          unfold insertRow at hres
          injection hres with h1 h2
          injection h1 with h1
          exact Or.inr ⟨code, Bool.eq_false_iff.mpr hce, h1.symm, h2.symm⟩

theorem findActiveByCode_append_fresh {s : DB} {row' : UrlRow}
    (hfresh : codeExists s row'.short_code = false) (ha : row'.is_active = true) :
    findActiveByCode { s with urls := s.urls ++ [row'], nextId := s.nextId + 1 }
      row'.short_code = some row' := by
  unfold findActiveByCode
  apply find?_append_some
  · intro r hr
    have hne := List.any_eq_false.mp hfresh r hr
    simp only [Bool.and_eq_true, not_and] at hne ⊢
    simp [Bool.eq_false_iff.mpr hne]
  · simp [ha]

theorem delete_link_ok {s : DB} {code : String}
    (h : s.urls.countP (fun r => r.short_code == code) ≠ 0) :
    delete_link s code = (.ok (), deactAll s code) := by
  unfold delete_link deactAll
  rw [if_neg h]

theorem mem_insRowDesc {y r : UrlRow} {l : List UrlRow} :
    y ∈ insRowDesc r l ↔ y = r ∨ y ∈ l := by
  induction l with
  | nil => simp [insRowDesc]
  | cons x xs ih =>
    by_cases h1 : x.created_at < r.created_at
    · simp [insRowDesc, h1]
    · simp only [insRowDesc, if_neg h1, List.mem_cons, ih]
      tauto

theorem mem_sortRowsDesc {y : UrlRow} {l : List UrlRow} :
    y ∈ sortRowsDesc l ↔ y ∈ l := by
  induction l with
  | nil => simp [sortRowsDesc]
  | cons x xs ih =>
    show y ∈ insRowDesc x (sortRowsDesc xs) ↔ _
    rw [mem_insRowDesc, ih]
    simp

theorem deactAll_all_inactive {s : DB} {code : String} :
    ∀ r' ∈ (deactAll s code).urls, r'.short_code = code → r'.is_active = false := by
  intro r' hr' hrc
  obtain ⟨r, hr, rfl⟩ := List.mem_map.mp hr'
  by_cases hb : (r.short_code == code) = true
  · rw [if_pos hb]
  · rw [if_neg hb] at hrc ⊢
    exact absurd (beq_iff_eq.mpr hrc) hb

theorem mem_windowDates {s : DB} {now d : Int} (hd : d ∈ windowDates s now) :
    dateOf now - 7 ≤ d ∧ ∃ e ∈ s.analytics, dateOf e.clicked_at = d := by
  unfold windowDates at hd
  obtain ⟨e, he, rfl⟩ := List.mem_map.mp hd
  obtain ⟨hmem, hcond⟩ := List.mem_filter.mp he
  exact ⟨of_decide_eq_true hcond, e, hmem, rfl⟩

theorem windowDates_count {s : DB} {now d : Int} (hd7 : dateOf now - 7 ≤ d) :
    (windowDates s now).count d =
      (s.analytics.filter (fun e => dateOf e.clicked_at = d)).length := by
  unfold windowDates
  rw [List.count_eq_countP, List.countP_map, List.countP_filter,
    ← List.countP_eq_length_filter]
  apply List.countP_congr
  intro e _
  simp only [Function.comp, Bool.and_eq_true, beq_iff_eq, decide_eq_true_eq]
  constructor
  · intro h
    exact h.1
  · intro h
    exact ⟨h, by omega⟩

/-- Claim C1 (counterexample): a valid URL whose shorten succeeds, yet
resolve on the returned code does not yield the URL back — the reused
active row is already expired, so resolve fails with the expired error. -/
theorem shorten_resolve_roundtrip_cex :
    is_valid_url ("http://example.com") = true ∧
    shorten_url dbExpired ("http://example.com") none none [] 864000 =
      (.ok ⟨1, "http://example.com", "abc", "http://localhost:5001/abc", 0, 0⟩, dbExpired) ∧
    (redirect_url dbExpired ("abc") ("") ("") ("") 864000).1 = .error .expired ∧
    (redirect_url dbExpired ("abc") ("") ("") ("") 864000).1 ≠ .ok "http://example.com" :=
  ⟨by decide, by decide, by decide, by decide⟩

/-- Claim C1 (amended): for every valid URL, shorten followed by resolve
on the returned short code yields exactly the original URL, provided the
link that code denotes is not expired at resolve time. -/
theorem shorten_resolve_roundtrip (s s' : DB) (u : String) (custom : Option String)
    (days : Option Int) (gens : List String) (now : Int) (resp : URLResponse)
    (ip ua ref : String)
    (hwf : Wf s)
    (hres : shorten_url s u custom days gens now = (.ok resp, s'))
    (hlive : linkLiveAt s' resp.short_code now = true) :
    (redirect_url s' resp.short_code ip ua ref now).1 = .ok u := by
  rcases shorten_ok_cases hres with ⟨row, hf, hresp, hs⟩ | ⟨code, hfresh, hresp, hs⟩
  · subst hs
    have hp := List.find?_some hf
    obtain ⟨ha, hu⟩ := (Bool.and_eq_true _ _).mp hp
    have hmem := List.mem_of_find?_eq_some hf
    have hcode : resp.short_code = row.short_code := by rw [hresp]; rfl
    rw [hcode] at hlive ⊢
    obtain ⟨rowX, hfX, hok⟩ := redirect_ok_of_live ip ua ref hlive
    rw [findActiveByCode_of_mem hwf hmem ha] at hfX
    obtain rfl : row = rowX := by injection hfX
    rw [hok, beq_iff_eq.mp hu]
  · have hcode : resp.short_code = (newRow s u code days now).short_code := by rw [hresp]; rfl
    rw [hcode] at hlive ⊢
    obtain ⟨rowX, hfX, hok⟩ := redirect_ok_of_live ip ua ref hlive
    have hfind : findActiveByCode s' (newRow s u code days now).short_code
        = some (newRow s u code days now) := by
      rw [hs]
      exact findActiveByCode_append_fresh hfresh rfl
    rw [hfind] at hfX
    obtain rfl : newRow s u code days now = rowX := by injection hfX
    rw [hok]
    rfl

/-- Claim C1 witness: on the empty database, shorten of a URL with a
generated code followed by resolve returns the URL. -/
theorem shorten_resolve_roundtrip_witness :
    (redirect_url (⟨[⟨1, "http://example.com", "abc123", 0, 0, true, none⟩], [], 2⟩ : DB)
      ("abc123") ("1.2.3.4") ("ua") ("") 0).1 = .ok "http://example.com" :=
  shorten_resolve_roundtrip db0
    ⟨[⟨1, "http://example.com", "abc123", 0, 0, true, none⟩], [], 2⟩
    ("http://example.com") none none ["abc123"] 0
    ⟨1, "http://example.com", "abc123", "http://localhost:5001/abc123", 0, 0⟩
    ("1.2.3.4") ("ua") ("") (by decide) (by decide) (by decide)

/-- Claim C2: when an active row with the requested original URL exists,
shorten (without a custom code) answers that existing row — the first
matching one — and leaves the database exactly unchanged: no new row, no
counter touched. -/
theorem shorten_idempotent_reuse (s : DB) (u : String) (days : Option Int)
    (gens : List String) (now : Int)
    (hval : is_valid_url u = true)
    (hex : ∃ r ∈ s.urls, r.is_active = true ∧ r.original_url = u) :
    ∃ row ∈ s.urls, row.is_active = true ∧ row.original_url = u ∧
      shorten_url s u none days gens now = (.ok (existingResponse row), s) := by
  cases hf : findActiveByUrl s u with
  | none =>
    exfalso
    obtain ⟨r, hr, ha, hu⟩ := hex
    have := List.find?_eq_none.mp hf r hr
    simp [ha, hu] at this
  | some row =>
    have hp := List.find?_some hf
    obtain ⟨ha, hu⟩ := (Bool.and_eq_true _ _).mp hp
    refine ⟨row, List.mem_of_find?_eq_some hf, ha, beq_iff_eq.mp hu, ?_⟩
    simp [shorten_url, hval, hf]

/-- Claim C2 witness: shorten on a database already holding an active row
for the URL returns that row and the unchanged state. -/
theorem shorten_idempotent_reuse_witness :
    ∃ row ∈ dbOne.urls, row.is_active = true ∧ row.original_url = "http://example.com" ∧
      shorten_url dbOne ("http://example.com") none none [] 50 =
        (.ok (existingResponse row), dbOne) :=
  shorten_idempotent_reuse dbOne ("http://example.com") none [] 50 (by decide)
    ⟨⟨1, "http://example.com", "abc", 0, 5, true, none⟩, by decide, by decide, by decide⟩

/-- Claim C3: resolve on an active link whose expiry lies strictly before
now fails with the expired error — an error distinct from not-found — and
leaves the state unchanged: no counter increment, no recorded event. -/
theorem resolve_expired_fails (s : DB) (row : UrlRow) (e : Int) (ip ua ref : String) (now : Int)
    (hwf : Wf s) (hmem : row ∈ s.urls) (hact : row.is_active = true)
    (hexp : row.expires_at = some e) (hlt : e < now) :
    redirect_url s row.short_code ip ua ref now = (.error .expired, s) ∧
    ApiErr.expired ≠ ApiErr.notFound := by
  refine ⟨?_, by decide⟩
  have hf := findActiveByCode_of_mem hwf hmem hact
  unfold redirect_url
  rw [hf]
  simp only [hexp, if_pos (show now > e by omega)]

/-- Claim C3 witness: resolving the expired row of `dbExpired` fails with
the expired error and keeps the state. -/
theorem resolve_expired_fails_witness :
    redirect_url dbExpired ("abc") ("ip") ("ua") ("ref") 864000 = (.error .expired, dbExpired) ∧
    ApiErr.expired ≠ ApiErr.notFound :=
  resolve_expired_fails dbExpired ⟨1, "http://example.com", "abc", 0, 0, true, some 0⟩ 0
    ("ip") ("ua") ("ref") 864000 (by decide) (by decide) (by decide) (by decide) (by decide)

/-- Claim C4: resolve on a code for which no row exists, or whose rows are
all deactivated, fails with the not-found error and leaves the state
unchanged: no counter increment, no recorded event. -/
theorem resolve_unknown_or_inactive_fails (s : DB) (code ip ua ref : String) (now : Int)
    (h : ∀ r ∈ s.urls, r.short_code = code → r.is_active = false) :
    redirect_url s code ip ua ref now = (.error .notFound, s) :=
  redirect_notFound_of_all_inactive ip ua ref now h

/-- Claim C4 witness: resolving the deactivated code of `dbInactive`
fails with not-found and keeps the state. -/
theorem resolve_unknown_or_inactive_fails_witness :
    redirect_url dbInactive ("abc") ("ip") ("ua") ("ref") 9 = (.error .notFound, dbInactive) :=
  resolve_unknown_or_inactive_fails dbInactive ("abc") ("ip") ("ua") ("ref") 9 (by decide)

/-- Claim C5: a shorten call with a (non-empty) custom code equal to the
code of any existing row — active or inactive — and whose original URL has
no active row, fails with the code-conflict error and changes nothing. -/
theorem custom_code_conflict (s : DB) (u c : String) (days : Option Int)
    (gens : List String) (now : Int)
    (hval : is_valid_url u = true)
    (hnoreuse : findActiveByUrl s u = none)
    (hc : c ≠ "")
    (hex : codeExists s c = true) :
    shorten_url s u (some c) days gens now = (.error .codeConflict, s) := by
  have hcb : (c == "") = false := beq_eq_false_iff_ne.mpr hc
  simp [shorten_url, hval, hnoreuse, effectiveCustom, hcb, hex]

/-- Claim C5 witness: a custom code colliding with an inactive row fails
with the code-conflict error and keeps the state. -/
theorem custom_code_conflict_witness :
    shorten_url dbInactive ("http://y.com") (some "abc") none [] 5 =
      (.error .codeConflict, dbInactive) :=
  custom_code_conflict dbInactive ("http://y.com") ("abc") none [] 5
    (by decide) (by decide) (by decide) (by decide)

/-- Claim C6: after a successful delete of a code, resolve on it fails
with not-found, the code no longer appears in the active listing, and the
per-code analytics answer is exactly what it was before — the recorded
click events remain queryable. -/
theorem deactivate_behavior (s : DB) (code ip ua ref : String) (now : Int)
    (row : UrlRow) (hmem : row ∈ s.urls) (hcode : row.short_code = code)
    (_hact : row.is_active = true) :
    (delete_link s code).1 = .ok () ∧
    (redirect_url (delete_link s code).2 code ip ua ref now).1 = .error .notFound ∧
    (∀ item ∈ get_all_links (delete_link s code).2, item.short_code ≠ code) ∧
    get_url_analytics (delete_link s code).2 code = get_url_analytics s code ∧
    (∃ info evs, get_url_analytics s code = .ok (info, evs)) := by
  have hcount : s.urls.countP (fun r => r.short_code == code) ≠ 0 := by
    rw [Ne, List.countP_eq_zero]
    push_neg
    exact ⟨row, hmem, by simp [hcode]⟩
  rw [delete_link_ok hcount]
  obtain ⟨row₀, hrow₀⟩ : ∃ r, findByCode s code = some r := by
    cases hfb : findByCode s code with
    | none =>
      have := List.find?_eq_none.mp hfb row hmem
      simp [hcode] at this
    | some r => exact ⟨r, rfl⟩
  have hrow₀f : s.urls.find? (fun r => r.short_code == code) = some row₀ := hrow₀
  have hbeq : (row₀.short_code == code) = true := by
    have h := List.find?_some hrow₀f
    simpa using h
  have hfm : findByCode (deactAll s code) code = some ({ row₀ with is_active := false }) := by
    unfold findByCode deactAll
    show List.find? _ (s.urls.map _) = _
    rw [List.find?_map]
    have hpt : ((fun r : UrlRow => r.short_code == code) ∘
        (fun r => if r.short_code == code then { r with is_active := false } else r)) =
        (fun r : UrlRow => r.short_code == code) := by
      funext r
      by_cases hb : (r.short_code == code) = true
      · simp [Function.comp, hb]
      · simp [Function.comp, hb]
    rw [hpt]
    show (findByCode s code).map _ = _
    rw [hrow₀]
    have hsc : row₀.short_code = code := beq_iff_eq.mp hbeq
    simp [hsc]
  refine ⟨rfl, ?_, ?_, ?_, ?_⟩
  · rw [redirect_notFound_of_all_inactive ip ua ref now deactAll_all_inactive]
  · intro item hitem hic
    obtain ⟨r'', hr'', rfl⟩ := List.mem_map.mp hitem
    have hr2 := mem_sortRowsDesc.mp hr''
    obtain ⟨hmem2, hact2⟩ := List.mem_filter.mp hr2
    have : r''.is_active = false :=
      deactAll_all_inactive r'' hmem2 hic
    rw [this] at hact2
    cases hact2
  · unfold get_url_analytics
    rw [hfm, hrow₀]
    rfl
  · refine ⟨⟨row₀.original_url, row₀.short_code, row₀.created_at, row₀.clicks⟩,
      eventsForCode s code, ?_⟩
    unfold get_url_analytics
    rw [hrow₀]

/-- Claim C6 witness: deleting the active code of `dbClicks` hides it from
resolve and the listing while its analytics stay intact. -/
theorem deactivate_behavior_witness :
    (delete_link dbClicks "abc").1 = .ok () ∧
    (redirect_url (delete_link dbClicks "abc").2 ("abc") ("ip") ("ua") ("ref") 9).1 =
      .error .notFound ∧
    (∀ item ∈ get_all_links (delete_link dbClicks "abc").2, item.short_code ≠ "abc") ∧
    get_url_analytics (delete_link dbClicks "abc").2 ("abc") = get_url_analytics dbClicks "abc" ∧
    (∃ info evs, get_url_analytics dbClicks ("abc") = .ok (info, evs)) :=
  deactivate_behavior dbClicks ("abc") ("ip") ("ua") ("ref") 9
    ⟨1, "http://x.com", "abc", 0, 3, true, none⟩ (by decide) (by decide) (by decide)

/-- Claim C7 (counterexample): with two active rows for the same URL, the
reuse lookup answers the first-inserted row (created at 100), not the most
recent one (created at 200). -/
theorem findActiveByUrl_most_recent_cex :
    findActiveByUrl dbTwoSame ("http://u.com") =
      some ⟨1, "http://u.com", "aaa", 100, 0, true, none⟩ ∧
    (⟨2, "http://u.com", "bbb", 200, 0, true, none⟩ : UrlRow) ∈ dbTwoSame.urls ∧
    (⟨2, "http://u.com", "bbb", 200, 0, true, none⟩ : UrlRow).is_active = true ∧
    (⟨2, "http://u.com", "bbb", 200, 0, true, none⟩ : UrlRow).original_url = "http://u.com" ∧
    (100 : Int) < 200 :=
  ⟨by decide, by decide, by decide, by decide, by decide⟩

/-- Claim C7 (amended): the reuse lookup answers the first active row in
rowid (insertion) order whose original URL matches exactly — every row
stored before it fails the match — and none when no active row matches. -/
theorem findActiveByUrl_first_match (s : DB) (u : String) :
    (findActiveByUrl s u = none ↔ ∀ r ∈ s.urls, ¬(r.is_active = true ∧ r.original_url = u)) ∧
    (∀ row, findActiveByUrl s u = some row →
      row.is_active = true ∧ row.original_url = u ∧
      ∃ l₁ l₂, s.urls = l₁ ++ row :: l₂ ∧
        ∀ r ∈ l₁, ¬(r.is_active = true ∧ r.original_url = u)) := by
  constructor
  · unfold findActiveByUrl
    rw [List.find?_eq_none]
    constructor
    · intro h r hr ⟨hra, hru⟩
      have := h r hr
      simp [hra, hru] at this
    · intro h r hr hcontra
      obtain ⟨hra, hru⟩ := (Bool.and_eq_true _ _).mp hcontra
      exact h r hr ⟨hra, beq_iff_eq.mp hru⟩
  · intro row hf
    obtain ⟨hp, l₁, l₂, hsplit, hl₁⟩ := find?_split hf
    obtain ⟨ha, hu⟩ := (Bool.and_eq_true _ _).mp hp
    refine ⟨ha, beq_iff_eq.mp hu, l₁, l₂, hsplit, ?_⟩
    intro r hr ⟨hra, hru⟩
    have := hl₁ r hr
    simp [hra, hru] at this

/-- Claim C7 witness: on `dbTwoSame` the lookup yields the first row and
every earlier row fails the match. -/
theorem findActiveByUrl_first_match_witness :
    (⟨1, "http://u.com", "aaa", 100, 0, true, none⟩ : UrlRow).is_active = true ∧
    (⟨1, "http://u.com", "aaa", 100, 0, true, none⟩ : UrlRow).original_url = "http://u.com" ∧
    ∃ l₁ l₂, dbTwoSame.urls =
        l₁ ++ (⟨1, "http://u.com", "aaa", 100, 0, true, none⟩ : UrlRow) :: l₂ ∧
      ∀ r ∈ l₁, ¬(r.is_active = true ∧ r.original_url = "http://u.com") :=
  (findActiveByUrl_first_match dbTwoSame ("http://u.com")).2
    ⟨1, "http://u.com", "aaa", 100, 0, true, none⟩ (by decide)

/-- Claim C8 (counterexample): with now on day 10, a single event dated
day 3 — exactly seven days before today, hence outside a seven-date
window that includes today, whose earliest date is day 4 — is still
returned by the click-data query. -/
theorem dailyCounts_window_cex :
    dateOf (10 * 86400) = 10 ∧
    dateOf (3 * 86400) = 10 - 7 ∧
    (get_analytics dbWeekOld (10 * 86400)).click_data = [(3, 1)] ∧
    ¬(10 - 6 ≤ (3 : Int)) :=
  ⟨by decide, by decide, by decide, by decide⟩

/-- Claim C8 (amended): the click-data query answers per-date counts in
strictly ascending date order, only for dates at least seven days before
the current date (an eight-date window: the bound date is included), with
zero-count dates omitted and each count equal to the number of events of
that date; over events dated only ten days back it is empty, and over
events dated only today it is a single entry with the full count. -/
theorem dailyCounts_window (s : DB) (now : Int) :
    (get_analytics s now).click_data.Pairwise (fun a b => a.1 < b.1) ∧
    (∀ p ∈ (get_analytics s now).click_data,
      dateOf now - 7 ≤ p.1 ∧ 0 < p.2 ∧
      p.2 = (s.analytics.filter (fun e => dateOf e.clicked_at = p.1)).length) ∧
    ((∀ e ∈ s.analytics, dateOf e.clicked_at ≤ dateOf now) →
      ∀ p ∈ (get_analytics s now).click_data, p.1 ≤ dateOf now) ∧
    ((∀ e ∈ s.analytics, dateOf e.clicked_at = dateOf now - 10) →
      (get_analytics s now).click_data = []) ∧
    ((∀ e ∈ s.analytics, dateOf e.clicked_at = dateOf now) → s.analytics ≠ [] →
      (get_analytics s now).click_data = [(dateOf now, s.analytics.length)]) := by
  refine ⟨?_, ?_, ?_, ?_, ?_⟩
  · show (clickData s now).Pairwise _
    unfold clickData
    rw [List.pairwise_map]
    exact pairwise_sortedDates (windowDates s now)
  · intro p hp
    obtain ⟨d, hd, rfl⟩ := List.mem_map.mp hp
    have hdw : d ∈ windowDates s now := mem_sortedDates.mp hd
    obtain ⟨hd7, _, _, _⟩ := mem_windowDates hdw
    refine ⟨hd7, ?_, ?_⟩
    · exact List.count_pos_iff.mpr hdw
    · exact windowDates_count hd7
  · intro hfut p hp
    obtain ⟨d, hd, rfl⟩ := List.mem_map.mp hp
    have hdw : d ∈ windowDates s now := mem_sortedDates.mp hd
    obtain ⟨_, e, he, hde⟩ := mem_windowDates hdw
    subst hde
    exact hfut e he
  · intro h10
    have hW : windowDates s now = [] := by
      unfold windowDates
      rw [List.filter_eq_nil_iff.mpr ?_]
      · rfl
      · intro e he
        have := h10 e he
        simp only [decide_eq_true_eq]
        omega
    show clickData s now = []
    unfold clickData
    rw [hW]
    rfl
  · intro hD hne
    have hfilter : s.analytics.filter
        (fun e => decide (dateOf now - 7 ≤ dateOf e.clicked_at)) = s.analytics := by
      apply List.filter_eq_self.mpr
      intro e he
      have := hD e he
      simp only [decide_eq_true_eq]
      omega
    have hW : windowDates s now = s.analytics.map (fun e => dateOf e.clicked_at) := by
      unfold windowDates
      rw [hfilter]
    have hall : ∀ x ∈ windowDates s now, x = dateOf now := by
      intro x hx
      rw [hW] at hx
      obtain ⟨e, he, rfl⟩ := List.mem_map.mp hx
      exact hD e he
    have hWne : windowDates s now ≠ [] := by
      rw [hW]
      simp [hne]
    have hcnt : (windowDates s now).count (dateOf now) = s.analytics.length := by
      rw [List.count_eq_length.mpr ?_]
      · rw [hW, List.length_map]
      · intro b hb
        exact (hall b hb).symm
    show clickData s now = _
    unfold clickData
    rw [sortedDates_all_eq hall hWne]
    simp [hcnt]

/-- Claim C8 witness: with now on day 10 and two events dated day 10, the
click-data query answers a single entry for day 10 with count 2. -/
theorem dailyCounts_window_witness :
    (get_analytics dbToday (10 * 86400)).click_data = [(10, 2)] := by
  have h := (dailyCounts_window dbToday (10 * 86400)).2.2.2.2 (by decide) (by decide)
  exact h.trans (by decide)

/-- Claim C9 (counterexample): a shorten call that passes expires-in-days
equal to 0 creates a row with no expiration timestamp, not one expiring
at now plus zero days. -/
theorem expiry_days_zero_cex :
    (shorten_url db0 ("http://example.com") none (some 0) ["abc123"] 500).2.urls.map
      (fun r => r.expires_at) = [none] ∧
    (none : Option Int) ≠ some (500 + 0 * secPerDay) :=
  ⟨by decide, by decide⟩

/-- Claim C9 (amended): every shorten call that creates a row appends
exactly one new row whose expiration equals now plus expires-in-days days
when that parameter is given and non-zero, and whose expiration is absent
exactly when the parameter is absent or zero. -/
theorem shorten_expiry_from_days (s s' : DB) (u : String) (custom : Option String)
    (days : Option Int) (gens : List String) (now : Int) (resp : URLResponse)
    (hres : shorten_url s u custom days gens now = (.ok resp, s'))
    (hnew : s' ≠ s) :
    ∃ code,
      s'.urls = s.urls ++ [newRow s u code days now] ∧
      (∀ d, days = some d → d ≠ 0 →
        (newRow s u code days now).expires_at = some (now + d * secPerDay)) ∧
      ((days = none ∨ days = some 0) → (newRow s u code days now).expires_at = none) := by
  rcases shorten_ok_cases hres with ⟨row, hf, hresp, hs⟩ | ⟨code, hfresh, hresp, hs⟩
  · exact absurd hs hnew
  · refine ⟨code, by rw [hs], ?_, ?_⟩
    · intro d hd hd0
      simp [newRow, hd, hd0]
    · intro hcase
      rcases hcase with rfl | rfl <;> simp [newRow]

/-- Claim C9 witness: creating a link with expires-in-days 2 at instant 7
yields a row expiring at 7 plus two days of seconds. -/
theorem shorten_expiry_from_days_witness :
    ∃ code,
      (⟨[⟨1, "http://example.com", "abc123", 7, 0, true, some (7 + 2 * secPerDay)⟩],
          [], 2⟩ : DB).urls
        = db0.urls ++ [newRow db0 ("http://example.com") code (some 2) 7] ∧
      (∀ d, (some 2 : Option Int) = some d → d ≠ 0 →
        (newRow db0 ("http://example.com") code (some 2) 7).expires_at =
          some (7 + d * secPerDay)) ∧
      (((some 2 : Option Int) = none ∨ (some 2 : Option Int) = some 0) →
        (newRow db0 ("http://example.com") code (some 2) 7).expires_at = none) :=
  shorten_expiry_from_days db0
    ⟨[⟨1, "http://example.com", "abc123", 7, 0, true, some (7 + 2 * secPerDay)⟩], [], 2⟩
    ("http://example.com") none (some 2) ["abc123"] 7
    ⟨1, "http://example.com", "abc123", "http://localhost:5001/abc123", 7, 0⟩
    (by decide) (by decide)

/-- Claim C10: deleting a code whose unique row is already inactive still
matches the row and succeeds with the state exactly unchanged, and the
not-found error occurs exactly when no row with the code exists at all. -/
theorem delete_idempotent (s : DB) (code : String) (row : UrlRow)
    (hwf : Wf s) (hmem : row ∈ s.urls) (hcode : row.short_code = code)
    (hina : row.is_active = false) :
    delete_link s code = (.ok (), s) ∧
    ∀ (s₂ : DB) (c₂ : String),
      ((delete_link s₂ c₂).1 = .error .notFound ↔ ∀ r ∈ s₂.urls, r.short_code ≠ c₂) := by
  constructor
  · have hcount : s.urls.countP (fun r => r.short_code == code) ≠ 0 := by
      rw [Ne, List.countP_eq_zero]
      push_neg
      exact ⟨row, hmem, by simp [hcode]⟩
    unfold delete_link
    rw [if_neg hcount]
    have hpt : ∀ r ∈ s.urls,
        (if r.short_code == code then { r with is_active := false } else r) = id r := by
      intro r hr
      by_cases hrc : (r.short_code == code) = true
      · rw [if_pos hrc]
        have hrrow : r = row := wf_inj hwf r hr row hmem (by rw [beq_iff_eq.mp hrc, hcode])
        subst hrrow
        exact setInactive_eq_self hina
      · rw [if_neg hrc]
        rfl
    rw [List.map_congr_left hpt, List.map_id]
  · intro s₂ c₂
    unfold delete_link
    by_cases h0 : s₂.urls.countP (fun r => r.short_code == c₂) = 0
    · rw [if_pos h0]
      rw [List.countP_eq_zero] at h0
      constructor
      · intro _ r hr
        have := h0 r hr
        simpa using this
      · intro _
        rfl
    · rw [if_neg h0]
      constructor
      · intro hcontra
        cases hcontra
      · intro hall
        exfalso
        apply h0
        rw [List.countP_eq_zero]
        intro r hr
        simp [hall r hr]

/-- Claim C10 witness: deleting the already-inactive code of `dbInactive`
succeeds and leaves the state identical, and on the empty database the
not-found condition holds for an unknown code. -/
theorem delete_idempotent_witness :
    delete_link dbInactive ("abc") = (.ok (), dbInactive) ∧
    ((delete_link db0 ("zzz")).1 = .error .notFound ↔ ∀ r ∈ db0.urls, r.short_code ≠ "zzz") :=
  ⟨(delete_idempotent dbInactive ("abc") ⟨1, "http://x.com", "abc", 0, 0, false, none⟩
      (by decide) (by decide) (by decide) (by decide)).1,
   (delete_idempotent dbInactive ("abc") ⟨1, "http://x.com", "abc", 0, 0, false, none⟩
      (by decide) (by decide) (by decide) (by decide)).2 db0 ("zzz")⟩
